import Mathlib

/-!
Verification of the client-side research-orchestration module
(`frontend/src/App.js` of the Autonomous-Research-Report-Agent repository)
against its natural-language specification.

JavaScript strings are embedded as `List Char` (`JStr`).  Network results
(`new URL(url).hostname`, backend responses) are abstracted as oracle
parameters, so every embedded function is a pure, executable Lean function
translated directly from the source.
-/

set_option maxRecDepth 4000

namespace ResearchAgent

/-- A JavaScript string, embedded as its list of characters. -/
abbrev JStr := List Char

/-! ### Domain extraction (`getDomain`, App.js lines 294-307) -/

/-- Model of JavaScript `hostname.split('.')`: splits a character list at
every `'.'`, keeping empty pieces, and always returns at least one piece
(`""` splits to `[""]`), exactly like `String.prototype.split`. -/
def splitDots : List Char → List (List Char)
  | [] => [[]]
  | c :: cs =>
    if c = '.' then [] :: splitDots cs
    else
      match splitDots cs with
      | [] => [[c]]
      | p :: ps => (c :: p) :: ps

/-- Model of JavaScript `parts.join('.')`. -/
def joinDots : List (List Char) → List Char
  | [] => []
  | [p] => p
  | p :: q :: ps => p ++ '.' :: joinDots (q :: ps)

/-- Model of `hostname.replace(/^www\./, '')`: drops the first four
characters when they are `www.`. -/
def stripWWW (h : List Char) : List Char :=
  if h.take 4 = ['w', 'w', 'w', '.'] then h.drop 4 else h

/-- `getDomain` (App.js lines 294-307).  `new URL(url).hostname` is
abstracted as the oracle value `host`: `some hostname` when URL parsing
succeeds, `none` when the `URL` constructor throws (the `catch` branch
returns the raw `url`).  When parsing succeeds the code splits the
hostname on dots, keeps the last two labels if there are more than two
(`parts.slice(-2).join('.')`), and otherwise strips a leading `www.`. -/
def getDomain (url : JStr) (host : Option JStr) : JStr :=
  match host with
  | none => url
  | some hostname =>
    let parts := splitDots hostname
    if parts.length > 2 then joinDots (parts.drop (parts.length - 2))
    else stripWWW hostname

/-- The specification's reading of domain extraction, written from the
spec's words: "hostname, minus leading `www.`, reduced to the last two
labels if more than two exist"; unparseable URLs fall back to the raw
URL string.  The `www.` prefix is removed first, then the label
reduction is applied. -/
def getDomainSpecModel (url : JStr) (host : Option JStr) : JStr :=
  match host with
  | none => url
  | some hostname =>
    let h2 := stripWWW hostname
    let parts := splitDots h2
    if parts.length > 2 then joinDots (parts.drop (parts.length - 2))
    else h2

theorem splitDots_ne_nil (cs : List Char) : splitDots cs ≠ [] := by
  cases cs with
  | nil => simp [splitDots]
  | cons c cs =>
    simp only [splitDots]
    split
    · simp
    · split
      · simp
      · simp

theorem splitDots_dot (rest : List Char) :
    splitDots ('.' :: rest) = [] :: splitDots rest := by
  simp [splitDots]

theorem splitDots_www (rest : List Char) :
    splitDots ('w' :: 'w' :: 'w' :: '.' :: rest) = ['w', 'w', 'w'] :: splitDots rest := by
  obtain ⟨p, ps, hp⟩ := List.exists_cons_of_ne_nil (splitDots_ne_nil rest)
  simp [splitDots, splitDots_dot]

theorem joinDots_splitDots (cs : List Char) : joinDots (splitDots cs) = cs := by
  induction cs with
  | nil => rfl
  | cons c cs ih =>
    by_cases hc : c = '.'
    · subst hc
      rw [splitDots_dot]
      obtain ⟨p, ps, hp⟩ := List.exists_cons_of_ne_nil (splitDots_ne_nil cs)
      rw [hp] at ih ⊢
      simpa [joinDots] using ih
    · simp only [splitDots, if_neg hc]
      obtain ⟨p, ps, hp⟩ := List.exists_cons_of_ne_nil (splitDots_ne_nil cs)
      rw [hp] at ih ⊢
      cases ps with
      | nil => simpa [joinDots] using ih
      | cons q qs => simpa [joinDots] using ih

/-- Claim C9: domain extraction maps every URL to its hostname minus a
leading `www.`, reduced to the last two dot-separated labels when more
than two exist, and for every URL string that cannot be parsed the raw
URL string itself is returned as the domain key rather than failing.
Formally, the code's `getDomain` (reduce-then-strip, as written in
App.js) agrees with the specification's description
(strip-`www.`-then-reduce, plus the raw-URL fallback) on every URL and
every hostname-parse outcome. -/
theorem getDomain_matches_spec (url : JStr) (host : Option JStr) :
    getDomain url host = getDomainSpecModel url host := by
  cases host with
  | none => rfl
  | some h =>
    by_cases hw : h.take 4 = ['w', 'w', 'w', '.']
    · have hsplit : h = 'w' :: 'w' :: 'w' :: '.' :: h.drop 4 := by
        conv_lhs => rw [← List.take_append_drop 4 h]
        rw [hw]
        rfl
      have hstrip : stripWWW h = h.drop 4 := by rw [stripWWW, if_pos hw]
      set rest := h.drop 4 with hrest
      obtain ⟨p, ps, hp⟩ := List.exists_cons_of_ne_nil (splitDots_ne_nil rest)
      simp only [getDomain, getDomainSpecModel, hstrip]
      rw [hsplit, splitDots_www, hp]
      cases ps with
      | nil =>
        -- one label after `www.`: neither side reduces
        simp [joinDots]
      | cons q qs =>
        cases qs with
        | nil =>
          -- exactly two labels after `www.`: the code drops the `www`
          -- label, the spec strips `www.` and keeps the whole remainder
          have hj : joinDots (splitDots rest) = rest := joinDots_splitDots rest
          rw [hp] at hj
          simpa using hj
        | cons r rs =>
          -- more than two labels after `www.`: both keep the last two
          simp only [List.length_cons, List.length]
          have h1 : rs.length + 1 + 1 + 1 + 1 > 2 := by omega
          have h2 : rs.length + 1 + 1 + 1 > 2 := by omega
          rw [if_pos h1, if_pos h2]
          have hd : rs.length + 1 + 1 + 1 + 1 - 2 = (rs.length + 1 + 1 + 1 - 2) + 1 := by
            omega
          rw [hd, List.drop_succ_cons]
    · have hstrip : stripWWW h = h := by rw [stripWWW, if_neg hw]
      simp only [getDomain, getDomainSpecModel, hstrip]

/-! ### Per-subtopic dedup/cap transform (fetchWebResources, App.js lines 310-358) -/

/-- A web resource as handled by the aggregation transform.  The code
only ever inspects `resource.url`; `title` carries identity for
otherwise-equal resources (the backend also sends `snippet`, which the
transform never reads). -/
structure Resource where
  url : JStr
  title : JStr
  deriving DecidableEq, Repr

/-- Model of `domainCounts[domain] = (domainCounts[domain] || 0) + 1`:
the counts object is a total function defaulting to `0`. -/
def bumpCount (counts : JStr → Nat) (d : JStr) : JStr → Nat :=
  fun x => if x = d then counts d + 1 else counts x

/-- One iteration of the `resources.forEach` loop in `fetchWebResources`
(App.js lines 316-329, and identically lines 340-353 for the flat
branch): increment the domain counter, then push the resource when the
post-increment counter is at most 2.  The trailing
`if (uniqueResources.length >= 7) return;` is not modeled as a loop
exit: `return` inside an `Array.prototype.forEach` callback only ends
the current iteration, and no code follows it, so it has no effect. -/
def dedupStep (host : JStr → Option JStr) (st : (JStr → Nat) × List Resource)
    (r : Resource) : (JStr → Nat) × List Resource :=
  let domain := getDomain r.url (host r.url)
  let counts := bumpCount st.1 domain
  let uniq := if counts domain ≤ 2 then st.2 ++ [r] else st.2
  (counts, uniq)

/-- The per-subtopic dedup/cap transform: the `resources.forEach` loop
started from empty `domainCounts` and empty `uniqueResources`.
`host` is the `new URL(·).hostname` oracle threaded into `getDomain`. -/
def dedupResources (host : JStr → Option JStr) (resources : List Resource) : List Resource :=
  (resources.foldl (dedupStep host) (fun _ => 0, [])).2

/-- The specification's description of the dedup/cap algorithm, written
from the spec's words: process resources in input order, admit a
resource exactly when its domain's pre-admission counter is below 2,
increment the counter for every seen resource of that domain whether or
not it is admitted, and preserve first-seen order. -/
def admitUpToTwo (host : JStr → Option JStr) : List Resource → (JStr → Nat) → List Resource
  | [], _ => []
  | r :: rs, seen =>
    let d := getDomain r.url (host r.url)
    if seen d < 2 then r :: admitUpToTwo host rs (bumpCount seen d)
    else admitUpToTwo host rs (bumpCount seen d)

theorem bumpCount_self (counts : JStr → Nat) (d : JStr) :
    bumpCount counts d d = counts d + 1 := by
  simp [bumpCount]

theorem dedup_foldl_eq (host : JStr → Option JStr) (rs : List Resource) :
    ∀ (counts : JStr → Nat) (acc : List Resource),
      (rs.foldl (dedupStep host) (counts, acc)).2 = acc ++ admitUpToTwo host rs counts := by
  induction rs with
  | nil => intro counts acc; simp [admitUpToTwo]
  | cons r rs ih =>
    intro counts acc
    simp only [List.foldl_cons, admitUpToTwo]
    by_cases hd : counts (getDomain r.url (host r.url)) < 2
    · rw [if_pos hd]
      have h1 : bumpCount counts (getDomain r.url (host r.url)) (getDomain r.url (host r.url)) ≤ 2 := by
        rw [bumpCount_self]; omega
      simp only [dedupStep, bumpCount_self, if_pos (show counts (getDomain r.url (host r.url)) + 1 ≤ 2 by omega)]
      rw [ih]
      simp
    · rw [if_neg hd]
      simp only [dedupStep, bumpCount_self, if_neg (show ¬(counts (getDomain r.url (host r.url)) + 1 ≤ 2) by omega)]
      rw [ih]

/-- Hostname oracle for the scenario urls: the hostname of `x.com/r0` is
everything before the first slash. -/
def pathHost (u : JStr) : Option JStr := some (u.takeWhile (fun c => c ≠ '/'))

/-- A resource on domain `x.com` with a one-character path. -/
def xr (c : Char) : Resource := ⟨'x' :: '.' :: 'c' :: 'o' :: 'm' :: '/' :: [c], ['x']⟩

/-- A resource on domain `y.com` with a one-character path. -/
def yr (c : Char) : Resource := ⟨'y' :: '.' :: 'c' :: 'o' :: 'm' :: '/' :: [c], ['y']⟩

/-- The spec's "Energy" scenario input: ten resources from `x.com`
followed by two from `y.com`. -/
def energyInput : List Resource :=
  [xr '0', xr '1', xr '2', xr '3', xr '4', xr '5', xr '6', xr '7', xr '8', xr '9',
   yr '0', yr '1']

/-- Claim C5: the per-subtopic dedup/cap transform processes resources in
input order, admits a resource exactly when its domain's pre-admission
counter is below 2, increments the counter for every seen resource of
that domain whether or not it is admitted, and preserves first-seen
order in the output (stated as: the loop as written equals the
first-two-per-domain reference recursion, which admits by that exact
rule); and on the scenario of ten `x.com` resources followed by two
`y.com` resources the bucket is exactly the first two of each domain,
four in total. -/
theorem dedup_is_first_two_per_domain :
    (∀ (host : JStr → Option JStr) (rs : List Resource),
        dedupResources host rs = admitUpToTwo host rs (fun _ => 0)) ∧
    dedupResources pathHost energyInput = [xr '0', xr '1', yr '0', yr '1'] := by
  constructor
  · intro host rs
    rw [dedupResources, dedup_foldl_eq]
    rfl
  · decide

/-- Hostname oracle that treats the whole url as the hostname (for urls
that are themselves bare hostnames). -/
def identityHost (u : JStr) : Option JStr := some u

/-- A resource on domain `a‹c›.com`, for eight distinct domains. -/
def ar (c : Char) : Resource := ⟨'a' :: c :: '.' :: 'c' :: 'o' :: 'm' :: [], ['a']⟩

/-- Eight resources from eight pairwise distinct domains. -/
def eightDistinctDomains : List Resource :=
  [ar '0', ar '1', ar '2', ar '3', ar '4', ar '5', ar '6', ar '7']

/-- Claim C1 (failing input): a subtopic bucket produced by the
aggregation transform can contain more than 7 resources.  On eight
resources from eight pairwise distinct domains every resource is
admitted, so the bucket has 8 entries: the `return` that was meant to
enforce the 7-item ceiling sits inside an `Array.prototype.forEach`
callback (where it only ends the current iteration) and runs after the
push, so the cap documented by the adjacent comment is never enforced.
The per-domain half of the invariant does hold; only the
7-item ceiling fails. -/
theorem dedup_bucket_can_exceed_seven :
    (dedupResources identityHost eightDistinctDomains).length = 8 := by decide

/-! ### Status polling (App.js lines 763-841)

The polling effect sets `pollingStartTime` when it starts and then runs a
`setInterval` callback every 2000 ms, so tick `k` (for `k = 1, 2, ...`)
runs at `2000 * k` ms after the effect start and the first poll request
goes out at tick 1.  Each tick first checks
`Date.now() - pollingStartTime > 180000` and, if exceeded, surfaces a
timeout error and clears the interval without issuing a request;
otherwise it issues the poll and dispatches on the response. -/

/-- A status-poll response: either a transport-level failure
(`!response.ok` or a network error, both thrown and caught) or a JSON
body whose `status` field is the given optional string (`none` when the
field is absent, as in the `{}` response). -/
inductive PollResponse
  | ok (status : Option JStr)
  | transportError
  deriving DecidableEq, Repr

/-- How a polling session ends (which `setError`/`setResearchResults`
branch ran when the interval was cleared). -/
inductive SessionEnd
  | completed
  | errorStatus
  | unrecognizedStatus
  | protocolError
  | transportFailed
  | timeout
  | fuelExhausted
  deriving DecidableEq, Repr

def statusPending : JStr := ['p', 'e', 'n', 'd', 'i', 'n', 'g']

def statusCompleted : JStr := ['c', 'o', 'm', 'p', 'l', 'e', 't', 'e', 'd']

def statusError : JStr := ['e', 'r', 'r', 'o', 'r']

/-- The interval callback from tick `k` onward, returning the list of
ticks at which a poll request was issued together with how the session
ended.  `fuel` only bounds the recursion; the timeout check makes
`SessionEnd.fuelExhausted` unreachable whenever `fuel + k ≥ 91`.
Per the source: the timeout check precedes the request; a thrown
transport error or a missing/empty `status` field ends the session via
the `catch` handler; `"completed"`, `"error"` and unrecognized statuses
clear the interval; `"pending"` only updates display hints and polls
again 2000 ms later. -/
def runPolls (resp : Nat → PollResponse) (fuel k : Nat) : List Nat × SessionEnd :=
  if 2000 * k > 180000 then ([], .timeout)
  else
    match fuel with
    | 0 => ([], .fuelExhausted)
    | fuel' + 1 =>
      match resp k with
      | .transportError => ([k], .transportFailed)
      | .ok none => ([k], .protocolError)
      | .ok (some s) =>
        if s = [] then ([k], .protocolError)
        else if s = statusCompleted then ([k], .completed)
        else if s = statusPending then
          let rest := runPolls resp fuel' (k + 1)
          (k :: rest.1, rest.2)
        else if s = statusError then ([k], .errorStatus)
        else ([k], .unrecognizedStatus)

/-- A complete polling session, started at tick 1 with enough fuel that
the timeout always fires first. -/
def pollSession (resp : Nat → PollResponse) : List Nat × SessionEnd :=
  runPolls resp 91 1

theorem runPolls_all_pending (resp : Nat → PollResponse) :
    ∀ fuel k, 1 ≤ k → 91 ≤ k + fuel →
      (∀ j, k ≤ j → j ≤ 90 → resp j = .ok (some statusPending)) →
      runPolls resp fuel k = (List.range' k (91 - k), .timeout) := by
  intro fuel
  induction fuel with
  | zero =>
    intro k h1 h91 hp
    rw [runPolls, if_pos (by omega)]
    have h0 : 91 - k = 0 := by omega
    rw [h0]
    rfl
  | succ fuel ih =>
    intro k h1 h91 hp
    by_cases hk : 2000 * k > 180000
    · rw [runPolls, if_pos hk]
      have h0 : 91 - k = 0 := by omega
      rw [h0]
      rfl
    · have hk90 : k ≤ 90 := by omega
      rw [runPolls, if_neg hk]
      simp only [hp k le_rfl hk90, if_true]
      rw [ih (k + 1) (by omega) (by omega) (fun j hj hj90 => hp j (by omega) hj90)]
      have hsucc : 91 - k = (91 - (k + 1)) + 1 := by omega
      rw [hsucc]
      simp only [List.range'_succ]
      rw [if_neg (show ¬(statusPending = []) by decide), if_neg (show ¬(statusPending = statusCompleted) by decide)]

theorem runPolls_issued_sound (resp : Nat → PollResponse) :
    ∀ fuel k, ∀ m ∈ (runPolls resp fuel k).1,
      2000 * m ≤ 180000 ∧ ∀ j, k ≤ j → j < m → resp j = .ok (some statusPending) := by
  intro fuel
  induction fuel with
  | zero =>
    intro k m hm
    rw [runPolls] at hm
    split at hm
    · simp at hm
    · simp at hm
  | succ fuel ih =>
    intro k m hm
    rw [runPolls] at hm
    by_cases hk : 2000 * k > 180000
    · rw [if_pos hk] at hm
      simp at hm
    · rw [if_neg hk] at hm
      cases hresp : resp k with
      | transportError =>
        simp only [hresp, List.mem_singleton] at hm
        subst hm
        exact ⟨by omega, fun j hj hjm => absurd hjm (by omega)⟩
      | ok st =>
        cases st with
        | none =>
          simp only [hresp, List.mem_singleton] at hm
          subst hm
          exact ⟨by omega, fun j hj hjm => absurd hjm (by omega)⟩
        | some s =>
          simp only [hresp] at hm
          by_cases hempty : s = []
          · rw [if_pos hempty] at hm
            simp only [List.mem_singleton] at hm
            subst hm
            exact ⟨by omega, fun j hj hjm => absurd hjm (by omega)⟩
          · rw [if_neg hempty] at hm
            by_cases hcomp : s = statusCompleted
            · rw [if_pos hcomp] at hm
              simp only [List.mem_singleton] at hm
              subst hm
              exact ⟨by omega, fun j hj hjm => absurd hjm (by omega)⟩
            · rw [if_neg hcomp] at hm
              by_cases hpend : s = statusPending
              · rw [if_pos hpend] at hm
                simp only [List.mem_cons] at hm
                rcases hm with hm | hm
                · subst hm
                  exact ⟨by omega, fun j hj hjm => absurd hjm (by omega)⟩
                · obtain ⟨hbound, hpre⟩ := ih (k + 1) m hm
                  refine ⟨hbound, fun j hj hjm => ?_⟩
                  rcases Nat.eq_or_lt_of_le hj with hj | hj
                  · subst hj
                    rw [hresp, hpend]
                  · exact hpre j (by omega) hjm
              · rw [if_neg hpend] at hm
                by_cases herr : s = statusError
                · rw [if_pos herr] at hm
                  simp only [List.mem_singleton] at hm
                  subst hm
                  exact ⟨by omega, fun j hj hjm => absurd hjm (by omega)⟩
                · rw [if_neg herr] at hm
                  simp only [List.mem_singleton] at hm
                  subst hm
                  exact ⟨by omega, fun j hj hjm => absurd hjm (by omega)⟩

/-- Claim C3: if no terminal status arrives within 180 seconds of the
first poll, polling halts with a client-side timeout error, and no poll
request is issued after the timeout or after any terminal status.
First conjunct: when every tick through tick 90 answers `"pending"`
(tick 90 is the last tick at `2000·90 = 180000` ms after the effect
start, i.e. 178 s after the first poll), the session issues exactly the
polls at ticks 1..90 and ends with the timeout error, which the code
surfaces via `setError`; the timeout fires at tick 91, exactly 180 s
after the first poll, and no request is issued at or after it.
Second conjunct: every issued poll happens within the 180 s budget
(tick ≤ 90) and is preceded only by `"pending"` responses, so no poll is
ever issued after a terminal status, a protocol failure, a transport
failure, or the timeout. -/
theorem polling_timeout_halts (resp : Nat → PollResponse) :
    ((∀ j, 1 ≤ j → j ≤ 90 → resp j = .ok (some statusPending)) →
        pollSession resp = (List.range' 1 90, .timeout)) ∧
    (∀ m ∈ (pollSession resp).1, m ≤ 90 ∧
        ∀ j, 1 ≤ j → j < m → resp j = .ok (some statusPending)) := by
  constructor
  · intro hp
    have h := runPolls_all_pending resp 91 1 le_rfl (by omega) (fun j hj hj90 => hp j hj hj90)
    simpa [pollSession] using h
  · intro m hm
    obtain ⟨hbound, hpre⟩ := runPolls_issued_sound resp 91 1 m hm
    exact ⟨by omega, hpre⟩

/-- Witness for `polling_timeout_halts`: the all-pending oracle makes the
session poll at ticks 1..90 and end with the timeout error. -/
theorem polling_timeout_halts_witness :
    pollSession (fun _ => .ok (some statusPending)) = (List.range' 1 90, .timeout) :=
  (polling_timeout_halts _).1 (fun _ _ _ => rfl)

theorem runPolls_pending_prefix_protocol (resp : Nat → PollResponse) (k : Nat)
    (h90 : k ≤ 90) (hk : resp k = .ok none) :
    ∀ fuel k2, 1 ≤ k2 → k2 ≤ k → k + 1 ≤ k2 + fuel →
      (∀ j, k2 ≤ j → j < k → resp j = .ok (some statusPending)) →
      runPolls resp fuel k2 = (List.range' k2 (k - k2 + 1), .protocolError) := by
  intro fuel
  induction fuel with
  | zero => intro k2 h1 hk2 hfuel hp; omega
  | succ fuel ih =>
    intro k2 h1 hk2 hfuel hp
    have hnk : ¬(2000 * k2 > 180000) := by omega
    rw [runPolls, if_neg hnk]
    rcases Nat.eq_or_lt_of_le hk2 with heq | hlt
    · subst heq
      simp only [hk]
      have h0 : k2 - k2 + 1 = 1 := by omega
      rw [h0]
      rfl
    · simp only [hp k2 le_rfl hlt, if_true]
      rw [ih (k2 + 1) (by omega) (by omega) (by omega) (fun j hj hjk => hp j (by omega) hjk)]
      have hsucc : k - k2 + 1 = (k - (k2 + 1) + 1) + 1 := by omega
      rw [hsucc]
      simp only [List.range'_succ]
      rw [if_neg (show ¬(statusPending = []) by decide), if_neg (show ¬(statusPending = statusCompleted) by decide)]

/-- Claim C4: if the status-poll response at tick `k` lacks the `status`
field (for example the body is the empty object), and the session is
still running at tick `k` (only `"pending"` answers so far, within the
timeout budget), then the session ends immediately with the
missing-status protocol failure thrown into the `catch` handler: the
polls issued are exactly ticks 1..k, so the failure is not retried and
no further poll is issued for that session. -/
theorem missing_status_stops_polling (resp : Nat → PollResponse) (k : Nat)
    (h1 : 1 ≤ k) (h90 : k ≤ 90)
    (hpre : ∀ j, 1 ≤ j → j < k → resp j = .ok (some statusPending))
    (hk : resp k = .ok none) :
    pollSession resp = (List.range' 1 k, .protocolError) := by
  have h := runPolls_pending_prefix_protocol resp k h90 hk 91 1 le_rfl h1 (by omega) hpre
  have hlen : k - 1 + 1 = k := by omega
  rw [pollSession, h, hlen]

/-- Oracle for the witness of `missing_status_stops_polling`: the very
first poll answers with a body that has no `status` field. -/
def respMissingStatus (j : Nat) : PollResponse :=
  if j = 1 then .ok none else .ok (some statusPending)

/-- Witness for `missing_status_stops_polling`: with a missing `status`
field on the first poll, the session issues exactly one poll and ends
with the protocol failure. -/
theorem missing_status_stops_polling_witness :
    pollSession respMissingStatus = (List.range' 1 1, .protocolError) :=
  missing_status_stops_polling respMissingStatus 1 le_rfl (by omega)
    (fun j hj hjlt => absurd hjlt (by omega)) rfl

/-! ### Result broadcasting (WebResources, App.js lines 361-368 and 444-460)

The `WebResources` component holds `webResources` (an ordered map from
subtopic to resources) and `urlSummaries` (an ordered map from url to
summary text).  A debounced effect (lines 444-460) waits 300 ms after the
last change, serializes the pair, compares it with the last serialization
kept in `resourcesLoadedRef`, and calls `onResourcesLoaded` only when it
differs.  Separately, `fetchWebResources` (lines 361-368) calls
`onResourcesLoaded` directly when the fetch completes, without the 300 ms
wait and without consulting or updating the ref.

The model processes a list of timestamped state-changing events.  The
trailing-edge debounce timer is reset by every state change, so the
handler fires after an event exactly when the next event is at least
300 ms later (or there is none); `JSON.stringify` is injective on these
ordered maps, so the serialization comparison is modeled as equality of
the pairs. -/

/-- The `webResources` map: subtopic label to resource list, in insertion
order. -/
abbrev RMap := List (JStr × List Resource)

/-- The `urlSummaries` map: url to summary text, in insertion order. -/
abbrev SMap := List (JStr × JStr)

/-- The pair serialized and handed to `onResourcesLoaded`. -/
abbrev Snapshot := RMap × SMap

instance decEqSnapshot : DecidableEq Snapshot := inferInstance

instance decEqDelivery : DecidableEq (Bool × Snapshot) := inferInstance

/-- Component state relevant to broadcasting: the two maps and the
`resourcesLoadedRef` content (`none` models its initial `false`). -/
structure BState where
  resources : RMap
  summaries : SMap
  lastSent : Option Snapshot
  deriving DecidableEq, Repr

/-- The state at mount: empty maps, ref still `false`. -/
def initialBState : BState := ⟨[], [], none⟩

/-- A state-changing event observed by the component:
`fetchDone bySub flat us` is a completed `fetchWebResources` whose
response body had the given optional `resources_by_subtopic`,
`resources` and `url_summaries` fields; `summaryDone url text` is a
completed per-url summary fetch storing `text` for `url`. -/
inductive BEvent
  | fetchDone (bySub : Option RMap) (flat : Option (List Resource)) (urlSumms : Option SMap)
  | summaryDone (url : JStr) (text : JStr)
  deriving Repr

def mainResourcesLabel : JStr :=
  ['M', 'a', 'i', 'n', ' ', 'R', 'e', 's', 'o', 'u', 'r', 'c', 'e', 's']

/-- The local `filteredResources` variable of `fetchWebResources`: filled
per subtopic in the grouped branch, but left as the initial empty object
by the flat branch (which writes its bucket directly into
`setWebResources`). -/
def filteredOf (host : JStr → Option JStr) (bySub : Option RMap) : RMap :=
  match bySub with
  | some m => m.map (fun p => (p.1, dedupResources host p.2))
  | none => []

/-- JavaScript object spread update `{...prev, [k]: v}`: overwrite in
place when the key exists, append otherwise. -/
def setKey (m : SMap) (k v : JStr) : SMap :=
  if m.any (fun p => decide (p.1 = k)) then m.map (fun p => if p.1 = k then (k, v) else p)
  else m ++ [(k, v)]

/-- Effect of one event on the component state (App.js lines 310-363 for
`fetchDone`: the grouped branch replaces `webResources` with the deduped
map, the flat branch replaces it with a single `Main Resources` bucket,
and `setUrlSummaries(data.url_summaries)` runs whenever the field is
present; lines 426-429 and 432-435 for `summaryDone`). -/
def stepState (host : JStr → Option JStr) (st : BState) : BEvent → BState
  | .fetchDone bySub flat us =>
    let st1 :=
      match bySub, flat with
      | some m, _ => { st with resources := filteredOf host (some m) }
      | none, some rs => { st with resources := [(mainResourcesLabel, dedupResources host rs)] }
      | none, none => st
    match us with
    | some s2 => { st1 with summaries := s2 }
    | none => st1
  | .summaryDone url text => { st with summaries := setKey st.summaries url text }

/-- The direct consumer call made by `fetchWebResources` itself (App.js
lines 365-368): `onResourcesLoaded(filteredResources, data.url_summaries
|| {})`, flagged `false` for "not debounced". -/
def directDeliveries (host : JStr → Option JStr) : BEvent → List (Bool × Snapshot)
  | .fetchDone bySub _ us => [(false, (filteredOf host bySub, us.getD []))]
  | .summaryDone _ _ => []

/-- The debounce timer set after the event at time `t` fires untouched
exactly when the next state change is at least 300 ms later (or never
comes). -/
def quietAfter (t : Nat) (rest : List (Nat × BEvent)) : Prop :=
  match rest with
  | [] => True
  | (t2, _) :: _ => t + 300 ≤ t2

instance quietAfterDec (t : Nat) (rest : List (Nat × BEvent)) : Decidable (quietAfter t rest) :=
  match rest with
  | [] => isTrue trivial
  | (_, _) :: _ => Nat.decLe _ _

/-- The debounced handler delivers after the event at time `t` iff the
timer survives 300 ms, the effect's guard sees a non-empty map
(`Object.keys(webResources).length > 0 || Object.keys(urlSummaries).length > 0`),
and the serialized pair differs from the ref (App.js lines 447-456). -/
def fireCond (host : JStr → Option JStr) (st : BState) (t : Nat) (e : BEvent)
    (rest : List (Nat × BEvent)) : Prop :=
  let st1 := stepState host st e
  quietAfter t rest ∧ (st1.resources ≠ [] ∨ st1.summaries ≠ []) ∧
    st1.lastSent ≠ some (st1.resources, st1.summaries)

instance fireCondDec (host : JStr → Option JStr) (st : BState) (t : Nat) (e : BEvent)
    (rest : List (Nat × BEvent)) : Decidable (fireCond host st t e rest) :=
  inferInstanceAs (Decidable (quietAfter t rest ∧
    ((stepState host st e).resources ≠ [] ∨ (stepState host st e).summaries ≠ []) ∧
    (stepState host st e).lastSent ≠
      some ((stepState host st e).resources, (stepState host st e).summaries)))

/-- The deliveries seen by the registered consumer while processing a
timestamped event list: each event first makes its direct deliveries,
then (if `fireCond` holds) the debounced handler delivers the current
snapshot and records it in the ref. -/
def bRun (host : JStr → Option JStr) : BState → List (Nat × BEvent) → List (Bool × Snapshot)
  | _, [] => []
  | st, (t, e) :: rest =>
    if fireCond host st t e rest then
      directDeliveries host e ++
        (true, ((stepState host st e).resources, (stepState host st e).summaries)) ::
          bRun host { stepState host st e with
            lastSent := some ((stepState host st e).resources, (stepState host st e).summaries) } rest
    else
      directDeliveries host e ++ bRun host (stepState host st e) rest

/-- The snapshots delivered through the debounced path, in order. -/
def debouncedSnaps (ds : List (Bool × Snapshot)) : List Snapshot :=
  (ds.filter (fun d => d.1)).map (fun d => d.2)

theorem stepState_lastSent (host : JStr → Option JStr) (st : BState) (e : BEvent) :
    (stepState host st e).lastSent = st.lastSent := by
  cases e with
  | fetchDone bySub flat us => cases bySub <;> cases flat <;> cases us <;> rfl
  | summaryDone url text => rfl

theorem debouncedSnaps_direct (host : JStr → Option JStr) (e : BEvent)
    (l : List (Bool × Snapshot)) :
    debouncedSnaps (directDeliveries host e ++ l) = debouncedSnaps l := by
  cases e <;> simp [directDeliveries, debouncedSnaps]

theorem debouncedSnaps_cons_true (s : Snapshot) (l : List (Bool × Snapshot)) :
    debouncedSnaps ((true, s) :: l) = s :: debouncedSnaps l := by
  simp [debouncedSnaps]

theorem bRun_debounced_chain (host : JStr → Option JStr) :
    ∀ (events : List (Nat × BEvent)) (st : BState),
      List.Chain' (fun a b => a ≠ b) (debouncedSnaps (bRun host st events)) ∧
      (∀ s, (debouncedSnaps (bRun host st events)).head? = some s → st.lastSent ≠ some s) := by
  intro events
  induction events with
  | nil =>
    intro st
    refine ⟨by simp [bRun, debouncedSnaps], fun s hs => ?_⟩
    simp [bRun, debouncedSnaps] at hs
  | cons te rest ih =>
    obtain ⟨t, e⟩ := te
    intro st
    by_cases hc : fireCond host st t e rest
    · have hrw : bRun host st ((t, e) :: rest) =
          directDeliveries host e ++
            (true, ((stepState host st e).resources, (stepState host st e).summaries)) ::
              bRun host
                { stepState host st e with
                  lastSent := some ((stepState host st e).resources, (stepState host st e).summaries) }
                rest := by
        rw [bRun, if_pos hc]
      rw [hrw, debouncedSnaps_direct, debouncedSnaps_cons_true]
      obtain ⟨ihChain, ihHead⟩ := ih
        { stepState host st e with
          lastSent := some ((stepState host st e).resources, (stepState host st e).summaries) }
      constructor
      · refine List.chain'_cons'.mpr ⟨fun y hy => ?_, ihChain⟩
        have hne := ihHead y hy
        simp only at hne
        intro hcontra
        exact hne (by rw [hcontra])
      · intro s hs
        simp only [List.head?_cons, Option.some.injEq] at hs
        subst hs
        have h3 := hc.2.2
        rw [stepState_lastSent] at h3
        exact h3
    · have hrw : bRun host st ((t, e) :: rest) =
          directDeliveries host e ++ bRun host (stepState host st e) rest := by
        rw [bRun, if_neg hc]
      rw [hrw, debouncedSnaps_direct]
      obtain ⟨ihChain, ihHead⟩ := ih (stepState host st e)
      refine ⟨ihChain, fun s hs => ?_⟩
      have := ihHead s hs
      rw [stepState_lastSent] at this
      exact this

/-- Claim C2 (amended): deliveries made through the debounced effect
happen only after a 300 ms quiet period (by construction of the
debounce), and each debounced delivery differs from the immediately
preceding debounced delivery, because the handler compares the canonical
serialization with the ref recording the last debounced delivery.  The
original at-most-once claim is false (see the counterexample): the
direct `onResourcesLoaded` call inside `fetchWebResources` delivers the
fetch-time snapshot immediately, bypassing both the quiet period and
the ref, so the consumer can observe the same logical snapshot again;
only consecutive debounced deliveries are guaranteed distinct. -/
theorem broadcast_debounced_no_adjacent_repeat (host : JStr → Option JStr)
    (events : List (Nat × BEvent)) :
    List.Chain' (fun a b => a ≠ b) (debouncedSnaps (bRun host initialBState events)) :=
  (bRun_debounced_chain host events initialBState).1

/-- A single-resource grouped payload used in the C2 counterexample. -/
def resA : Resource := ⟨['a', '.', 'c', 'o', 'm'], ['a']⟩

/-- A one-event trace: a grouped resource fetch completes at time 0 and
nothing else ever changes. -/
def traceC2 : List (Nat × BEvent) :=
  [(0, .fetchDone (some [(['M'], [resA])]) none none)]

/-- The snapshot both deliveries carry in the C2 counterexample. -/
def snapC2 : Snapshot := ([(['M'], [resA])], [])

/-- Claim C2 (counterexample): a single completed resource fetch delivers
the same logical snapshot to the consumer twice — once immediately via
the direct call in `fetchWebResources` (no quiet period, ref not
consulted), and once 300 ms later via the debounced handler (whose ref
still holds its initial value) — so a given aggregated snapshot is not
delivered at most once. -/
theorem broadcast_delivers_snapshot_twice :
    bRun identityHost initialBState traceC2 = [(false, snapC2), (true, snapC2)] ∧
      ¬ List.Nodup ((bRun identityHost initialBState traceC2).map Prod.snd) := by
  decide

/-! ### Summary fetch triggering (WebResources, App.js lines 381-413)

The trigger effect walks every resource of every subtopic, collects urls
with no truthy stored summary and no truthy loading flag, takes the
first 3, and calls `fetchUrlSummary` for each.  All guard reads inside
one synchronous trigger pass see the same render snapshot of
`urlSummaries` and `summaryLoadingStates`: the `setState` calls made by
earlier `fetchUrlSummary` invocations in the same pass do not update the
closed-over bindings that later invocations read. -/

/-- The `summaryLoadingStates` map: url to loading flag. -/
abbrev LMap := List (JStr × Bool)

/-- `urlSummaries[u]` as a JavaScript truthiness test: present and a
non-empty string. -/
def truthySummary (m : SMap) (u : JStr) : Bool :=
  match (m.find? (fun p => decide (p.1 = u))).map (fun p => p.2) with
  | some s => decide (s ≠ [])
  | none => false

/-- `summaryLoadingStates[u]` as a truthiness test: present and `true`. -/
def truthyLoading (l : LMap) (u : JStr) : Bool :=
  match (l.find? (fun p => decide (p.1 = u))).map (fun p => p.2) with
  | some b => b
  | none => false

/-- `urlsToFetch` (App.js lines 385-394): every resource url, across
subtopics in order, that has neither a truthy summary nor a truthy
loading flag in the render snapshot. -/
def collectUrlsToFetch (wr : RMap) (us : SMap) (ls : LMap) : List JStr :=
  ((wr.map Prod.snd).flatten.map Resource.url).filter
    (fun u => !truthySummary us u && !truthyLoading ls u)

/-- `fetchBatch = urlsToFetch.slice(0, 3)` (App.js line 397). -/
def fetchBatch (wr : RMap) (us : SMap) (ls : LMap) : List JStr :=
  (collectUrlsToFetch wr us ls).take 3

/-- The urls for which a fetch is actually dispatched in one trigger
pass: each `fetchUrlSummary(url)` call re-checks
`summaryLoadingStates[url] || urlSummaries[url]` (App.js line 407)
against the same snapshot before fetching. -/
def startedFetches (wr : RMap) (us : SMap) (ls : LMap) : List JStr :=
  (fetchBatch wr us ls).filter (fun u => !(truthyLoading ls u || truthySummary us u))

/-- A resource map that lists the same url under two subtopics. -/
def wrDup : RMap := [(['A'], [resA]), (['B'], [resA])]

/-- Claim C6 (failing input): with the same url listed under two
subtopics and neither a stored summary nor a loading flag for it, a
single trigger pass dispatches two fetches for that url — both guard
checks read the same pre-update snapshot, so the skip guard does not
stop the second call and two summary fetches for the same URL are in
flight at once. -/
theorem summary_trigger_double_fetch :
    startedFetches wrDup [] [] = [resA.url, resA.url] ∧
      ¬ List.Nodup (startedFetches wrDup [] []) := by decide

/-! ### App-level task state and retry (App.js lines 733-761 and 896-910) -/

/-- The `useState` cells of the `App` component.  `researchResults` and
`lastApiResponse` are opaque payloads here; only presence matters. -/
structure AppState where
  isLoading : Bool
  isGeneratingQueries : Bool
  error : Option JStr
  taskId : Option JStr
  currentStep : Nat
  researchResults : Option JStr
  searchQueries : Option (List JStr)
  progress : Nat
  lastApiResponse : Option JStr
  webResources : RMap
  urlSummaries : SMap
  deriving DecidableEq, Repr

/-- `handleRetry` (App.js lines 896-910): clears the error, stops
loading, clears the task id, resets the step, and clears the research
results; the trailing `fetch('/api/clear-cache')` is a fire-and-forget
server call and touches no client state. -/
def handleRetry (s : AppState) : AppState :=
  { s with error := none, isLoading := false, taskId := none, currentStep := 0,
           researchResults := none }

/-- An app state carrying data from a previous session. -/
def staleState : AppState :=
  { isLoading := false, isGeneratingQueries := false, error := some ['e'],
    taskId := some ['t'], currentStep := 7, researchResults := some ['r'],
    searchQueries := none, progress := 50, lastApiResponse := none,
    webResources := [(['M'], [resA])], urlSummaries := [(resA.url, ['s'])] }

/-- Claim C7 (counterexample): invoking retry does not reset the
aggregated resource map or the summary map — on a state holding data
from the previous session, both maps survive `handleRetry` unchanged and
non-empty, so data from the previous session remains observable (it is
passed to `ComprehensiveReport` once the next session renders results). -/
theorem retry_keeps_stale_aggregates :
    (handleRetry staleState).webResources = [(['M'], [resA])] ∧
      (handleRetry staleState).urlSummaries = [(resA.url, ['s'])] ∧
      (handleRetry staleState).webResources ≠ [] := by decide

/-- Claim C7 (amended): retry resets the error, the loading flag, the
task id, the current step and the research results before a new
submission, but the aggregated resource map (`webResources`) and the
summary map (`urlSummaries`) are left untouched and persist across the
retry. -/
theorem retry_resets_only_session_fields (s : AppState) :
    (handleRetry s).error = none ∧ (handleRetry s).isLoading = false ∧
    (handleRetry s).taskId = none ∧ (handleRetry s).currentStep = 0 ∧
    (handleRetry s).researchResults = none ∧
    (handleRetry s).webResources = s.webResources ∧
    (handleRetry s).urlSummaries = s.urlSummaries :=
  ⟨rfl, rfl, rfl, rfl, rfl, rfl, rfl⟩

/-! ### Stored summary text (fetchUrlSummary, App.js lines 415-441) -/

def noSummaryText : JStr :=
  ['N', 'o', ' ', 's', 'u', 'm', 'm', 'a', 'r', 'y', ' ',
   'a', 'v', 'a', 'i', 'l', 'a', 'b', 'l', 'e', '.']

/-- The text stored on a successful summary response:
`data.summary || "No summary available."`, where `respSummary` is the
response's optional `summary` field (typed here as an optional string)
and the empty string is falsy. -/
def storedSummaryOnSuccess (respSummary : Option JStr) : JStr :=
  match respSummary with
  | some s => if s = [] then noSummaryText else s
  | none => noSummaryText

def failedPrefix : JStr :=
  ['F', 'a', 'i', 'l', 'e', 'd', ' ', 't', 'o', ' ', 'f', 'e', 't', 'c', 'h', ' ',
   's', 'u', 'm', 'm', 'a', 'r', 'y', ':', ' ']

/-- The text stored by the catch branch:
`Failed to fetch summary: ${err.message}`. -/
def storedSummaryOnFailure (msg : JStr) : JStr := failedPrefix ++ msg

/-- Claim C10: when a per-URL summary fetch completes successfully but
the response's `summary` field is missing or the empty string, the
stored text is the literal `No summary available.`; and every stored
summary entry — from the success path or from the visible-failure catch
path — is a non-empty string once its fetch completes. -/
theorem stored_summary_nonempty :
    storedSummaryOnSuccess none = noSummaryText ∧
    storedSummaryOnSuccess (some []) = noSummaryText ∧
    (∀ r, storedSummaryOnSuccess r ≠ []) ∧
    (∀ m, storedSummaryOnFailure m ≠ []) := by
  refine ⟨rfl, by decide, fun r => ?_, fun m => ?_⟩
  · cases r with
    | none => simp [storedSummaryOnSuccess, noSummaryText]
    | some s =>
      by_cases hs : s = []
      · simp [storedSummaryOnSuccess, hs, noSummaryText]
      · simpa [storedSummaryOnSuccess, if_neg hs] using hs
  · simp [storedSummaryOnFailure, failedPrefix]

/-! ### Report assembly (ComprehensiveReport.generateSimpleReport, App.js lines 611-662) -/

/-- Shorthand for embedding a Lean string literal as a JavaScript
string. -/
def jstr (s : String) : JStr := s.data

/-- The completed research payload fields read by report assembly. -/
structure ResearchData where
  query : JStr
  summary : JStr
  subtopics : List JStr
  deriving Repr

/-- JavaScript `toLowerCase`, character by character. -/
def toLowerJS (s : JStr) : JStr := s.map Char.toLower

/-- JavaScript `split(/\s+/)`: split at maximal whitespace runs (a
leading or trailing run contributes an empty piece, interior runs act as
single separators). -/
def splitWs : List Char → List JStr
  | [] => [[]]
  | c :: cs =>
    if c.isWhitespace then
      match cs with
      | [] => [] :: splitWs cs
      | c2 :: _ => if c2.isWhitespace then splitWs cs else [] :: splitWs cs
    else
      match splitWs cs with
      | [] => [[c]]
      | p :: ps => (c :: p) :: ps

/-- `relevantSummaries` for one subtopic (App.js lines 623-634): keep the
summary-map entries whose lowercased text contains some lowercased
subtopic keyword longer than 3 characters.  Summary values are typed as
strings, so the `typeof summary === 'string'` branch always applies. -/
def relevantSummaries (subtopic : JStr) (us : SMap) : SMap :=
  let keywords := splitWs (toLowerJS subtopic)
  us.filter (fun p => keywords.any (fun kw =>
    decide (kw <:+: toLowerJS p.2) && decide (kw.length > 3)))

/-- The subtopic sections of the simple report (App.js lines 618-645). -/
def sectionsText (research : ResearchData) (us : SMap) : JStr :=
  (research.subtopics.map (fun subtopic =>
    jstr "## " ++ subtopic ++ jstr "\n\n" ++
    (let rel := relevantSummaries subtopic us
     if rel.length > 0 then
       List.intercalate (jstr "\n\n") ((rel.take 2).map (fun p => p.2))
     else jstr "Information on " ++ subtopic ++ jstr " is still being compiled.\n\n") ++
    jstr "\n\n")).flatten

/-- One reference line: `` `${index + 1}. [${hostname}](${url})\n` ``. -/
def refLine (i : Nat) (host url : JStr) : JStr :=
  (Nat.repr (i + 1)).data ++ jstr ". [" ++ host ++ jstr "](" ++ url ++ jstr ")\n"

/-- The references loop (App.js lines 649-652): for each url in
insertion order, `new URL(url).hostname` — abstracted by the oracle
`ph` — either yields a hostname or throws (`.error`), aborting the
whole `try` block. -/
def referencesGo (ph : JStr → Option JStr) : Nat → JStr → List JStr → Except Unit JStr
  | _, acc, [] => .ok acc
  | i, acc, url :: rest =>
    match ph url with
    | none => .error ()
    | some host => referencesGo ph (i + 1) (acc ++ refLine i host url) rest

def referencesLines (ph : JStr → Option JStr) (urls : List JStr) : Except Unit JStr :=
  referencesGo ph 0 [] urls

/-- What `setReport` receives from `generateSimpleReport`: the assembled
document, or the catch branch's replacement text
(`Failed to generate report: ...`, carried as `failed`). -/
inductive ReportResult
  | ok (content : JStr)
  | failed
  deriving DecidableEq, Repr

/-- `generateSimpleReport` (App.js lines 611-662): title, executive
summary, subtopic sections, then the references section; any `new URL`
throw inside the references loop lands in the catch handler, which
replaces the entire report with the failure text. -/
def generateSimpleReport (ph : JStr → Option JStr) (research : ResearchData)
    (us : SMap) : ReportResult :=
  let base :=
    jstr "# Comprehensive Report on " ++ research.query ++ jstr "\n\n" ++
    jstr "## Executive Summary\n" ++ research.summary ++ jstr "\n\n" ++
    sectionsText research us ++
    jstr "## References\n\n"
  match referencesLines ph (us.map Prod.fst) with
  | .ok refs => .ok (base ++ refs)
  | .error _ => .failed

/-- Whether an assembled report contains the text `Source` anywhere (in
particular any would-be `Source N` fallback reference label). -/
def containsSourceLabel (r : ReportResult) : Bool :=
  match r with
  | .ok c => decide (jstr "Source" <:+: c)
  | .failed => false

theorem referencesGo_fails (ph : JStr → Option JStr) :
    ∀ (urls : List JStr) (i : Nat) (acc url : JStr),
      url ∈ urls → ph url = none → referencesGo ph i acc urls = .error () := by
  intro urls
  induction urls with
  | nil => intro i acc url h _; simp at h
  | cons u rest ih =>
    intro i acc url hmem hnone
    rcases List.mem_cons.mp hmem with h | h
    · subst h
      simp only [referencesGo, hnone]
    · cases hu : ph u with
      | none => simp only [referencesGo, hu]
      | some host =>
        simp only [referencesGo, hu]
        exact ih (i + 1) (acc ++ refLine i host u) url h hnone

/-- Claim C8 (amended): a URL whose hostname cannot be parsed does not
get a fallback reference label — instead `new URL(url).hostname` throws
inside the references loop, the surrounding catch replaces the entire
report with the failure text, and no reference entry is produced for any
URL.  (The thrown error still does not escape `generateSimpleReport`:
the catch converts it into the replacement report.)  Formally: whenever
some url of the summary map is unparseable, assembly returns the
failure replacement. -/
theorem unparseable_url_fails_report (ph : JStr → Option JStr)
    (research : ResearchData) (us : SMap) (url s : JStr)
    (hmem : (url, s) ∈ us) (hph : ph url = none) :
    generateSimpleReport ph research us = .failed := by
  have hfail : referencesLines ph (us.map Prod.fst) = .error () :=
    referencesGo_fails ph (us.map Prod.fst) 0 [] url
      (List.mem_map_of_mem Prod.fst hmem) hph
  simp only [generateSimpleReport, referencesLines] at hfail ⊢
  rw [hfail]

/-- Hostname oracle on which every URL fails to parse. -/
def noneHost (_ : JStr) : Option JStr := none

def badUrl : JStr := ['n', 'o', 't', ' ', 'a', ' ', 'u', 'r', 'l']

def researchQ : ResearchData := ⟨['Q'], ['S'], []⟩

def badSummaries : SMap := [(badUrl, ['t'])]

/-- Witness for `unparseable_url_fails_report`: a one-entry summary map
whose url is unparseable makes report assembly return the failure
replacement. -/
theorem unparseable_url_fails_report_witness :
    generateSimpleReport noneHost researchQ badSummaries = .failed :=
  unparseable_url_fails_report noneHost researchQ badSummaries badUrl ['t']
    (List.mem_singleton.mpr rfl) rfl

/-- Claim C8 (counterexample): on a summary map containing an
unparseable URL, report assembly produces no document at all — the
output is the catch branch's failure replacement, which in particular
contains no `Source N` fallback reference entry, contrary to the
claim. -/
theorem unparseable_url_no_fallback_label :
    containsSourceLabel (generateSimpleReport noneHost researchQ badSummaries) = false ∧
      generateSimpleReport noneHost researchQ badSummaries = ReportResult.failed := by
  decide

end ResearchAgent
